import Mathlib

/-!
Verification of the per-output render manager (src/src/output/render-manager.cpp).

A pixman region (`pixman_region32_t`) is semantically a finite union of
axis-aligned integer rectangles in output pixel space.  We embed it as a
list of boxes; all pixman operations used by the source (union, intersect,
intersect with a rect, subtract, translate, emptiness test) are defined on
this representation, and their pointwise characterisations are proved below.
-/

/-- A `wlr_box` / pixman box: x, y, width, height, all integers. -/
structure Box where
  x : Int
  y : Int
  w : Int
  h : Int
deriving DecidableEq

/-- Membership of the pixel (px, py) in a box. -/
def Box.MemP (b : Box) (px py : Int) : Prop :=
  b.x ≤ px ∧ px < b.x + b.w ∧ b.y ≤ py ∧ py < b.y + b.h

instance (b : Box) (px py : Int) : Decidable (b.MemP px py) := by
  unfold Box.MemP; infer_instance

/-- A pixman region, embedded as a list of (possibly overlapping, possibly
degenerate) boxes; its meaning is the union of their pixel sets. -/
abbrev Region : Type := List Box

/-- Membership of the pixel (px, py) in a region. -/
def Region.MemP (r : Region) (px py : Int) : Prop :=
  ∃ b ∈ r, b.MemP px py

instance (r : Region) (px py : Int) : Decidable (r.MemP px py) := by
  unfold Region.MemP; exact List.decidableBEx _ r

/-- Intersection of two boxes (pixman clip rule). -/
def interBox (b c : Box) : Box :=
  ⟨max b.x c.x, max b.y c.y,
   min (b.x + b.w) (c.x + c.w) - max b.x c.x,
   min (b.y + b.h) (c.y + c.h) - max b.y c.y⟩

/-- pixman_region32_union. -/
def Region.union (a b : Region) : Region := a ++ b

/-- pixman_region32_union_rect. -/
def Region.union_rect (a : Region) (b : Box) : Region := a ++ [b]

/-- pixman_region32_init_rect. -/
def Region.ofBox (b : Box) : Region := [b]

/-- pixman_region32_intersect_rect. -/
def Region.intersect_rect (a : Region) (c : Box) : Region :=
  a.map (fun b => interBox b c)

/-- Concatenation of the images of a list under a list-valued function
(used to implement region-level intersection and subtraction). -/
def listConcatMap : List Box → (Box → List Box) → List Box
  | [], _ => []
  | b :: t, f => f b ++ listConcatMap t f

/-- pixman_region32_intersect. -/
def Region.intersect (a b : Region) : Region :=
  listConcatMap a (fun u => b.map (fun v => interBox u v))

/-- pixman_region32_translate: move every box of the region by (dx, dy). -/
def Region.translate (a : Region) (dx dy : Int) : Region :=
  a.map (fun b => ⟨b.x + dx, b.y + dy, b.w, b.h⟩)

/-- Difference of one box by another: the up-to-four boxes covering
b minus c (top band, bottom band, left band, right band). -/
def boxMinus (b c : Box) : List Box :=
  if (max b.x c.x < min (b.x + b.w) (c.x + c.w)) ∧
     (max b.y c.y < min (b.y + b.h) (c.y + c.h)) then
    let cy1 := max b.y c.y
    let cy2 := min (b.y + b.h) (c.y + c.h)
    [⟨b.x, b.y, b.w, c.y - b.y⟩,
     ⟨b.x, c.y + c.h, b.w, b.y + b.h - (c.y + c.h)⟩,
     ⟨b.x, cy1, c.x - b.x, cy2 - cy1⟩,
     ⟨c.x + c.w, cy1, b.x + b.w - (c.x + c.w), cy2 - cy1⟩]
  else [b]

/-- Subtract one box from every box of a region. -/
def Region.subtractBox (r : Region) (c : Box) : Region :=
  listConcatMap r (fun b => boxMinus b c)

/-- pixman_region32_subtract: subtract a whole region. -/
def Region.subtract (a b : Region) : Region :=
  b.foldl Region.subtractBox a

/-- pixman_region32_not_empty: the region contains at least one pixel. -/
def Region.not_empty (r : Region) : Bool :=
  r.any (fun b => decide (0 < b.w) && decide (0 < b.h))

/-! ## Frame scheduler counters (render-manager.cpp lines 196-225)

`render_manager::auto_redraw` adjusts the `constant_redraw` counter and may
call `schedule_redraw()`; `render_manager::add_inhibit` adjusts the
`output_inhibit` counter.  Both counters are C++ `int`s, embedded as `Int`. -/

/-- render_manager::auto_redraw (lines 196-208).  Returns the new value of
`constant_redraw` together with whether `schedule_redraw()` was invoked. -/
def render_manager.auto_redraw (constant_redraw : Int) (redraw : Bool) : Int × Bool :=
  let c := constant_redraw + (if redraw then 1 else -1)
  if c > 1 then
    (c, false)
  else if c < 0 then
    (0, false)
  else
    (c, true)

/-- render_manager::add_inhibit (lines 210-219): the counter update.  (The
`output_inhibit == 0` branch additionally forces full damage and emits the
start-rendering signal; it does not change the counter.) -/
def render_manager.add_inhibit (output_inhibit : Int) (add : Bool) : Int :=
  output_inhibit + (if add then 1 else -1)

/-- One externally visible scheduler call: either `auto_redraw b` or
`add_inhibit b`. -/
inductive SchedOp where
  | auto (b : Bool)
  | inhibit (b : Bool)
deriving DecidableEq

/-- The two scheduler counters of a render manager. -/
structure SchedState where
  constant_redraw : Int
  output_inhibit : Int
deriving DecidableEq

/-- Effect of one scheduler call on the counters. -/
def schedStep (st : SchedState) : SchedOp → SchedState
  | SchedOp.auto b =>
      { st with constant_redraw := (render_manager.auto_redraw st.constant_redraw b).1 }
  | SchedOp.inhibit b =>
      { st with output_inhibit := render_manager.add_inhibit st.output_inhibit b }

/-- Counters reached after a call sequence, starting from the initial state
(both counters zero, per the constructor). -/
def schedRun (ops : List SchedOp) : SchedState :=
  ops.foldl schedStep ⟨0, 0⟩

/-- Number of inhibit(true) calls in a sequence. -/
def countInhibitTrue : List SchedOp → Nat
  | [] => 0
  | SchedOp.inhibit true :: t => countInhibitTrue t + 1
  | _ :: t => countInhibitTrue t

/-- Number of inhibit(false) calls in a sequence. -/
def countInhibitFalse : List SchedOp → Nat
  | [] => 0
  | SchedOp.inhibit false :: t => countInhibitFalse t + 1
  | _ :: t => countInhibitFalse t

/-- Claim C5 as stated: `schedule_redraw()` is invoked exactly on the calls
where the counter crosses from 0 to 1. -/
def autoRedrawScheduleClaim : Prop :=
  ∀ c : Int, 0 ≤ c → ∀ r : Bool,
    ((render_manager.auto_redraw c r).2 = true ↔ (c = 0 ∧ r = true))

/-- Claim C6 as stated: after every call of every sequence starting from the
initial state, both counters are non-negative. -/
def counterNonNegClaim : Prop :=
  ∀ ops : List SchedOp, ∀ n : Nat,
    0 ≤ (schedRun (ops.take n)).constant_redraw ∧
    0 ≤ (schedRun (ops.take n)).output_inhibit

/-! ## Effect hook registry (render-manager.cpp lines 439-459)

Effect hooks (`effect_hook_t*`) are embedded as numeric identifiers.  A hook
invoked by `run_effects` may itself mutate the phase's container through
`add_effect` / `rem_effect`; a hook's behaviour is modelled as the list of
registry operations it performs when invoked. -/

/-- render_manager::add_effect (lines 449-452): append to the container. -/
def render_manager.add_effect (container : List Nat) (hook : Nat) : List Nat :=
  container ++ [hook]

/-- render_manager::rem_effect (lines 454-459): std::remove + erase deletes
every occurrence of the hook. -/
def render_manager.rem_effect (container : List Nat) (hook : Nat) : List Nat :=
  container.filter (fun h => h ≠ hook)

/-- A registry mutation a hook may perform while being invoked. -/
inductive RegOp where
  | addOp (hook : Nat)
  | remOp (hook : Nat)

/-- Apply one registry mutation to the live container. -/
def applyRegOp (container : List Nat) : RegOp → List Nat
  | RegOp.addOp h => render_manager.add_effect container h
  | RegOp.remOp h => render_manager.rem_effect container h

/-- Invoke one hook: perform all of its registry mutations in order. -/
def invokeHook (beh : Nat → List RegOp) (container : List Nat) (h : Nat) : List Nat :=
  (beh h).foldl applyRegOp container

/-- render_manager::run_effects (lines 439-447): copy the container into
`active_effects`, then invoke each element of the copy while the live
container may be mutated by the invoked hooks.  Returns the sequence of
invoked hooks and the final live container. -/
def render_manager.run_effects (beh : Nat → List RegOp) (container : List Nat) :
    List Nat × List Nat :=
  let active_effects := container.foldl (fun acc e => acc ++ [e]) ([] : List Nat)
  active_effects.foldl (fun acc e => (acc.1 ++ [e], invokeHook beh acc.2 e)) ([], container)

/-! ## Damage accumulator (wf_output_damage, render-manager.cpp lines 23-92) -/

/-- Result of wf_output_damage::make_current: the returned flag, the
caller's out_damage region, and the new internal frame damage. -/
structure MakeCurrentResult where
  ret : Bool
  out_damage : Region
  frame_damage : Region

/-- wf_output_damage::make_current (lines 60-80).  `tracked` is the damage
aggregated by the external wlr damage manager, which
`wlr_output_damage_make_current` stores into out_damage on success
(overwriting the prior contents `out0`); `success` is its return value; w, h
is the transformed output resolution.  On success the output-sized rectangle
is subtracted from the internal frame damage, the remainder is unioned into
out_damage, and with `no_damage_track` the full output rect is unioned in as
well. -/
def wf_output_damage.make_current (frame_damage tracked out0 : Region)
    (success : Bool) (no_damage_track : Bool) (w h : Int) : MakeCurrentResult :=
  if success then
    let regular : Region := Region.ofBox ⟨0, 0, w, h⟩
    let frame' := frame_damage.subtract regular
    let out := tracked.union frame'
    let out := if no_damage_track then out.union regular else out
    ⟨true, out, frame'⟩
  else
    ⟨false, out0, frame_damage⟩

/-- render_manager::get_ws_damage (lines 228-246): the frame damage is
intersected with the rectangle of workspace (vx, vy) relative to the current
workspace (cx, cy) and translated into workspace-local coordinates. -/
def render_manager.get_ws_damage (frame_damage : Region) (vx vy cx cy sw sh : Int) : Region :=
  (frame_damage.intersect_rect ⟨(vx - cx) * sw, (vy - cy) * sh, sw, sh⟩).translate
    ((cx - vx) * sw) ((cy - vy) * sh)

/-- The render manager state observable by get_ws_damage and its callers:
the internal frame damage, the current workspace as reported by the
workspace manager, and the scheduler counters. -/
structure render_manager_state where
  frame_damage : Region
  current_ws : Int × Int
  constant_redraw : Int
  output_inhibit : Int

/-- render_manager::get_ws_damage as a state-passing operation: every
statement of the body (lines 228-246) either reads manager state or writes
the caller's out_damage region, so the resulting manager state is returned
alongside the out parameter. -/
def render_manager.get_ws_damage_st (st : render_manager_state) (vx vy sw sh : Int) :
    Region × render_manager_state :=
  (render_manager.get_ws_damage st.frame_damage vx vy st.current_ws.1 st.current_ws.2 sw sh,
   st)

/-! ## Workspace stream rendering (render-manager.cpp lines 555-796)

Surfaces and views are embedded with the fields the stream-update loop
reads.  Surface and view identities are numeric. -/

/-- The per-surface data read by workspace_stream_update.  `opaque` is the
surface's occluding (C++ field name: the surface's o p a q u e) region in surface-local coordinates.
Modelled from the spec: `alpha` and `subtract_opaque` belong to
wayfire_surface_t, which is outside src/; per the spec, an opaque surface
(alpha at least 0.999) subtracts its opaque region from the remaining
ws_damage.  Alpha is embedded as a rational. -/
structure wayfire_surface_t where
  sid : Nat
  is_mapped : Bool
  geo_w : Int
  geo_h : Int
  alpha : ℚ
  occl_region : Region

/-- Modelled from the spec: wayfire_surface_t::subtract_o p a q u e (outside
src/) subtracts the surface's opaque region, positioned at (x, y), from the
given region. -/
def wayfire_surface_t.subtract_occl (s : wayfire_surface_t) (reg : Region) (x y : Int) :
    Region :=
  reg.subtract (s.occl_region.translate x y)

/-- Modelled from the spec: get_output_box_from_box (outside src/) converts
a box from logical to output pixel coordinates by the output scale factor
(identity at scale 1). -/
def get_output_box_from_box (b : Box) (scale : Int) : Box :=
  ⟨b.x * scale, b.y * scale, b.w * scale, b.h * scale⟩

/-- One damaged-surface record of workspace_stream_update (lines 621-630):
the surface to draw, the stored view offset, and the record's own damage. -/
structure damaged_surface_t where
  surface : Nat
  x : Int
  y : Int
  damage : Region

/-- The `schedule_render_surface` lambda (lines 660-697), acting on the
accumulator (to_render, ws_damage).  An unmapped surface, an empty
ws_damage, or an empty intersected damage leaves the accumulator unchanged;
otherwise a record is appended and, if the surface is opaque (alpha at least
0.999), its opaque region is subtracted from ws_damage. -/
def schedule_render_surface (scale : Int) (acc : List damaged_surface_t × Region)
    (surface : wayfire_surface_t) (x y view_dx view_dy : Int) :
    List damaged_surface_t × Region :=
  if surface.is_mapped = false then acc
  else if acc.2.not_empty = false then acc
  else
    let x' := x - view_dx
    let y' := y - view_dy
    let obox := get_output_box_from_box ⟨x', y', surface.geo_w, surface.geo_h⟩ scale
    let dsDamage := (Region.ofBox obox).intersect acc.2
    if dsDamage.not_empty then
      let ws' := if (999 : ℚ) / 1000 ≤ surface.alpha then
          surface.subtract_occl acc.2 x' y'
        else acc.2
      (acc.1 ++ [⟨surface.sid, view_dx, view_dy, dsDamage⟩], ws')
    else acc

/-- The per-view data read by the stream-update view loop. -/
structure wayfire_view_t where
  vid : Nat
  is_visible : Bool
  is_mapped : Bool
  has_transformer : Bool
  is_shell : Bool
  bounding_box : Box
  surfaces : List (wayfire_surface_t × Int × Int)

/-- The `schedule_render_snapshotted_view` lambda (lines 636-658): the whole
view bounding box, offset and scaled, intersected with ws_damage; a record
is appended when non-empty.  No opaque subtraction happens here. -/
def schedule_render_snapshotted_view (scale : Int) (acc : List damaged_surface_t × Region)
    (view : wayfire_view_t) (view_dx view_dy : Int) : List damaged_surface_t × Region :=
  let b := view.bounding_box
  let bbox := get_output_box_from_box ⟨b.x - view_dx, b.y - view_dy, b.w, b.h⟩ scale
  let dsDamage := (Region.ofBox bbox).intersect acc.2
  if dsDamage.not_empty then
    (acc.1 ++ [⟨view.vid, view_dx, view_dy, dsDamage⟩], acc.2)
  else acc

/-- The body of the view loop for one view (lines 717-746): invisible views
are skipped; non-shell views are offset by (dx, dy); transformed or
unmapped views go through the snapshotted path, the rest iterate their
subsurfaces through schedule_render_surface. -/
def stream_process_view (scale dx dy : Int) (acc : List damaged_surface_t × Region)
    (view : wayfire_view_t) : List damaged_surface_t × Region :=
  if view.is_visible = false then acc
  else
    let view_dx := if view.is_shell then 0 else dx
    let view_dy := if view.is_shell then 0 else dy
    if view.has_transformer || view.is_mapped = false then
      schedule_render_snapshotted_view scale acc view view_dx view_dy
    else
      view.surfaces.foldl
        (fun a p => schedule_render_surface scale a p.1 p.2.1 p.2.2 view_dx view_dy) acc

/-- The view while-loop (lines 715-747): iteration stops as soon as
ws_damage becomes empty (the condition is checked before each view). -/
def stream_collect_views (scale dx dy : Int) :
    List wayfire_view_t → List damaged_surface_t × Region → List damaged_surface_t × Region
  | [], acc => acc
  | v :: rest, acc =>
    if acc.2.not_empty then
      stream_collect_views scale dx dy rest (stream_process_view scale dx dy acc v)
    else acc

/-- Building the to_render list in workspace_stream_update: drag-icon
surfaces first (lines 699-713, offsets 0), then the front-to-back view list
(lines 715-747). -/
def build_to_render (scale dx dy : Int) (icons : List (wayfire_surface_t × Int × Int))
    (views : List wayfire_view_t) (ws_damage : Region) :
    List damaged_surface_t × Region :=
  let acc0 := icons.foldl (fun a p => schedule_render_surface scale a p.1 p.2.1 p.2.2 0 0)
    ([], ws_damage)
  stream_collect_views scale dx dy views acc0

/-- The drawing loop of workspace_stream_update (lines 767-776): records are
rendered via a reverse iterator (rbegin to rend), each call passing the
record's own damage to render_fb.  Returns the sequence of render_fb calls
as (surface, damage) pairs. -/
def emit_render_calls : List damaged_surface_t → List (Nat × Region)
  | [] => []
  | ds :: rest => emit_render_calls rest ++ [(ds.surface, ds.damage)]

/-! ## paint() orchestration (render-manager.cpp lines 284-437)

paint() is embedded as a trace generator: external calls and pipeline
stages become trace actions, and the branches of the body are driven by an
environment record.  paint() returns void in the source; no error value
exists in its type. -/

/-- The externally observable actions paint() and post_paint() perform. -/
inductive PaintAction where
  | cleanup_hooks
  | effects_phase (phase : Nat)
  | mk_current (ok : Bool)
  | bind_gpu
  | alloc_default
  | debug_clear
  | custom_render
  | stream_render
  | soft_cursors
  | run_post_hook (i : Nat)
  | inhibit_clear
  | unbind_gpu
  | swap
  | sched_redraw
  | frame_done
deriving DecidableEq

/-- The data deciding paint()'s branches: whether make_current succeeds and
reports needs_swap, the scheduler counters, the debug flags, whether a
custom renderer is installed, whether the clipped frame damage is
non-empty, and the number of post effects. -/
structure PaintEnv where
  mc_ok : Bool
  needs_swap : Bool
  constant_redraw : Int
  damage_debug : Bool
  renderer : Bool
  frame_damage_clipped_not_empty : Bool
  n_post : Nat
  output_inhibit : Int
deriving DecidableEq

/-- render_manager::post_paint (lines 399-437) as a trace: cleanup, post
effects, a schedule_redraw when constant_redraw is positive, then frame-done
notifications. -/
def render_manager.post_paint_trace (e : PaintEnv) : List PaintAction :=
  [PaintAction.cleanup_hooks, PaintAction.effects_phase 2] ++
  (if e.constant_redraw = 0 then [] else [PaintAction.sched_redraw]) ++
  [PaintAction.frame_done]

/-- render_manager::paint (lines 284-397) as a trace.  Phase 0 is the pre
phase, 1 the overlay phase, 2 the post phase. -/
def render_manager.paint_trace (e : PaintEnv) : List PaintAction :=
  let head := [PaintAction.cleanup_hooks, PaintAction.effects_phase 0,
               PaintAction.mk_current e.mc_ok]
  if e.mc_ok = false then head
  else if e.needs_swap = false ∧ e.constant_redraw = 0 then
    head ++ render_manager.post_paint_trace e
  else
    head ++ [PaintAction.bind_gpu, PaintAction.alloc_default] ++
    (if e.damage_debug then [PaintAction.debug_clear] else []) ++
    (if e.renderer then [PaintAction.custom_render]
     else if e.frame_damage_clipped_not_empty then [PaintAction.stream_render] else []) ++
    [PaintAction.effects_phase 1, PaintAction.soft_cursors] ++
    ((List.range e.n_post).map PaintAction.run_post_hook) ++
    (if e.output_inhibit = 0 then [] else [PaintAction.inhibit_clear]) ++
    [PaintAction.unbind_gpu, PaintAction.swap] ++
    render_manager.post_paint_trace e

/-! ## Post-effect chain (render-manager.cpp lines 275-531)

Modelled from the spec: wf_framebuffer_base (allocate / reset / release) is
declared in opengl.hpp, outside src/.  Per the spec, the zero-id pair
(fb = 0, tex = 0) is a sentinel for the display framebuffer, not an
allocation: allocate on it only resizes ("Just resize the framebuffer, to
match real size" at line 474, and the assert at line 383), while reset /
release drop the ids to the unallocated state from which allocate generates
fresh non-zero GL names.  Ids are embedded as `Option Nat`: `none` is the
unallocated state, `some 0` the zero-id display sentinel, and `some n` with
positive n an owned GL object.  Fresh names are drawn from a counter. -/

/-- A GPU framebuffer resource: framebuffer and texture ids plus the
current viewport size. -/
structure wf_framebuffer_base where
  fb : Option Nat
  tex : Option Nat
  viewport_w : Int
  viewport_h : Int
deriving DecidableEq

/-- Modelled from the spec: reset() drops the ids without freeing. -/
def wf_framebuffer_base.reset (_b : wf_framebuffer_base) : wf_framebuffer_base :=
  ⟨none, none, 0, 0⟩

/-- Modelled from the spec: release() frees the GL objects and returns to
the unallocated state. -/
def wf_framebuffer_base.release (_b : wf_framebuffer_base) : wf_framebuffer_base :=
  ⟨none, none, 0, 0⟩

/-- Modelled from the spec: allocate(w, h) generates a fresh GL name (from
the counter `next`) for each id in the unallocated state, keeps existing ids
(including the zero-id display sentinel), and updates the viewport size. -/
def wf_framebuffer_base.allocate (b : wf_framebuffer_base) (next : Nat) (w h : Int) :
    wf_framebuffer_base × Nat :=
  match b.fb, b.tex with
  | none, none => (⟨some next, some (next + 1), w, h⟩, next + 2)
  | none, some t => (⟨some next, some t, w, h⟩, next + 1)
  | some f, none => (⟨some f, some next, w, h⟩, next + 1)
  | some f, some t => (⟨some f, some t, w, h⟩, next)

/-- One post-effect chain entry (render-manager.cpp lines 275-282): the
hook, the deferred-removal flag, and the entry's buffer (the constructor
zeroes the ids).  `eid` models the entry's address for the pointer
comparison in _rem_post. -/
structure wf_post_effect where
  eid : Nat
  hook : Nat
  to_remove : Bool
  buffer : wf_framebuffer_base
deriving DecidableEq

/-- The chain-related state of a render manager: the default buffer, the
ordered post-effect list, the fresh GL-name counter and the fresh
entry-address counter. -/
structure PostChain where
  default_buffer : wf_framebuffer_base
  post_effects : List wf_post_effect
  next_id : Nat
  next_eid : Nat
deriving DecidableEq

/-- The state after the render_manager constructor (line 107:
default_buffer.tex = default_buffer.fb = 0; no post effects).  GL names
start at 1: name 0 is the display framebuffer. -/
def initChain : PostChain := ⟨⟨some 0, some 0, 0, 0⟩, [], 1, 0⟩

/-- render_manager::add_post (lines 461-478): reset + allocate the
previous-last buffer (the default buffer when the chain is empty), then
append a new entry whose buffer carries the zero-id pair and is allocated
(resized) to the output size.  damage(NULL) touches only the damage state,
not the chain. -/
def render_manager.add_post (st : PostChain) (hook : Nat) (w h : Int) : PostChain :=
  let st1 :=
    match st.post_effects.getLast? with
    | none =>
        let p := (st.default_buffer.reset).allocate st.next_id w h
        { st with default_buffer := p.1, next_id := p.2 }
    | some e =>
        let p := (e.buffer.reset).allocate st.next_id w h
        { st with post_effects := st.post_effects.dropLast ++ [{ e with buffer := p.1 }],
                  next_id := p.2 }
  let p2 := (⟨some 0, some 0, 0, 0⟩ : wf_framebuffer_base).allocate st1.next_id w h
  { st1 with
    post_effects := st1.post_effects ++ [⟨st1.next_eid, hook, false, p2.1⟩],
    next_id := p2.2,
    next_eid := st1.next_eid + 1 }

/-- The terminal fix-up at the end of _rem_post (lines 496-504): when the
new last buffer (the default buffer if the chain emptied) has a non-zero fb
id, it is released and both ids are set to zero. -/
def fixTerminalBuffer (b : wf_framebuffer_base) : wf_framebuffer_base :=
  if b.fb ≠ some 0 then ⟨some 0, some 0, 0, 0⟩ else b

/-- render_manager::_rem_post (lines 480-507): erase (and release) every
entry matching the given address, then apply the terminal fix-up to the new
last buffer.  damage(NULL) does not touch the chain. -/
def render_manager._rem_post (st : PostChain) (eid : Nat) : PostChain :=
  match (st.post_effects.filter (fun e => e.eid ≠ eid)).getLast? with
  | none =>
      { st with post_effects := st.post_effects.filter (fun e => e.eid ≠ eid),
                default_buffer := fixTerminalBuffer st.default_buffer }
  | some e =>
      { st with post_effects := (st.post_effects.filter (fun e => e.eid ≠ eid)).dropLast ++
          [{ e with buffer := fixTerminalBuffer e.buffer }] }

/-- render_manager::cleanup_post_hooks (lines 509-520): collect the entries
marked to_remove, then _rem_post each of them. -/
def render_manager.cleanup_post_hooks (st : PostChain) : PostChain :=
  ((st.post_effects.filter (fun e => e.to_remove)).map (fun e => e.eid)).foldl
    render_manager._rem_post st

/-- render_manager::rem_post (lines 522-531): mark every entry with a
matching hook for deferred removal. -/
def render_manager.rem_post (st : PostChain) (hook : Nat) : PostChain :=
  { st with post_effects :=
      st.post_effects.map (fun e => if e.hook = hook then { e with to_remove := true } else e) }

/-- Chain states reachable from the constructor state through the public
chain operations (add_post, rem_post, and the cleanup run at frame
boundaries). -/
inductive ChainReach : PostChain → Prop where
  | init : ChainReach initChain
  | add (st : PostChain) (hook : Nat) (w h : Int) :
      ChainReach st → ChainReach (render_manager.add_post st hook w h)
  | rem (st : PostChain) (hook : Nat) :
      ChainReach st → ChainReach (render_manager.rem_post st hook)
  | cleanup (st : PostChain) :
      ChainReach st → ChainReach (render_manager.cleanup_post_hooks st)

/-- The fb id is zero exactly when the tex id is zero. -/
def bufZeroSync (b : wf_framebuffer_base) : Prop := (b.fb = some 0) ↔ (b.tex = some 0)

/-- The last chain entry, when one exists, carries the zero-id pair. -/
def chainTerminalZero (st : PostChain) : Prop :=
  ∀ e, st.post_effects.getLast? = some e →
    e.buffer.fb = some 0 ∧ e.buffer.tex = some 0

/-- The buffer owns a real allocated GL object: both ids are present and
non-zero. -/
def realBuffer (b : wf_framebuffer_base) : Prop :=
  (∃ n, b.fb = some n ∧ n ≠ 0) ∧ (∃ n, b.tex = some n ∧ n ≠ 0)

/-- The chain invariant: every entry (and the default buffer) has
synchronised zero ids, the last entry carries the zero-id pair, and the
GL-name counter is positive. -/
def chainInv (st : PostChain) : Prop :=
  (∀ e ∈ st.post_effects, bufZeroSync e.buffer) ∧
  bufZeroSync st.default_buffer ∧
  chainTerminalZero st ∧
  1 ≤ st.next_id

/-- After add_post, the slot that was last before the call (the default
buffer if the chain was empty, otherwise the now second-to-last entry) owns
a real allocated buffer. -/
def prevSlotReal (st st' : PostChain) : Prop :=
  (st.post_effects.getLast? = none → realBuffer st'.default_buffer) ∧
  (∀ e, st.post_effects.getLast? = some e →
    ∃ e', st'.post_effects.dropLast.getLast? = some e' ∧
      e'.eid = e.eid ∧ realBuffer e'.buffer)

/-! ## Pointwise characterisation of the region algebra -/

theorem memP_interBox (b c : Box) (px py : Int) :
    (interBox b c).MemP px py ↔ b.MemP px py ∧ c.MemP px py := by
  unfold interBox Box.MemP
  dsimp only
  omega

theorem Region.memP_ofBox (b : Box) (px py : Int) :
    (Region.ofBox b).MemP px py ↔ b.MemP px py := by
  unfold Region.ofBox Region.MemP
  simp

theorem Region.memP_append (a b : Region) (px py : Int) :
    Region.MemP (a ++ b) px py ↔ a.MemP px py ∨ b.MemP px py := by
  unfold Region.MemP
  constructor
  · rintro ⟨d, hd, hm⟩
    rcases List.mem_append.mp hd with h' | h'
    · exact Or.inl ⟨d, h', hm⟩
    · exact Or.inr ⟨d, h', hm⟩
  · rintro (⟨d, hd, hm⟩ | ⟨d, hd, hm⟩)
    · exact ⟨d, List.mem_append.mpr (Or.inl hd), hm⟩
    · exact ⟨d, List.mem_append.mpr (Or.inr hd), hm⟩

theorem Region.memP_cons (c : Box) (t : Region) (px py : Int) :
    Region.MemP (c :: t) px py ↔ c.MemP px py ∨ t.MemP px py := by
  have h : c :: t = [c] ++ t := rfl
  rw [h, Region.memP_append]
  rw [show ([c] : Region) = Region.ofBox c from rfl, Region.memP_ofBox]

theorem mem_listConcatMap (l : List Box) (f : Box → List Box) (d : Box) :
    d ∈ listConcatMap l f ↔ ∃ b ∈ l, d ∈ f b := by
  induction l with
  | nil => simp [listConcatMap]
  | cons a t ih => simp [listConcatMap, List.mem_append, ih]

theorem memP_boxMinus (b c : Box) (px py : Int) :
    Region.MemP (boxMinus b c) px py ↔ b.MemP px py ∧ ¬ c.MemP px py := by
  unfold boxMinus
  split
  · rename_i hcond
    simp only [Region.MemP, List.mem_cons, List.not_mem_nil, or_false, Box.MemP,
      exists_eq_or_imp, exists_eq_left]
    omega
  · rename_i hcond
    simp only [Region.MemP, List.mem_cons, List.not_mem_nil, or_false, Box.MemP,
      exists_eq_or_imp, exists_eq_left]
    omega

theorem Region.memP_subtractBox (r : Region) (c : Box) (px py : Int) :
    (r.subtractBox c).MemP px py ↔ r.MemP px py ∧ ¬ c.MemP px py := by
  unfold Region.subtractBox Region.MemP
  constructor
  · rintro ⟨d, hd, hm⟩
    rcases (mem_listConcatMap r _ d).mp hd with ⟨b, hb, hdb⟩
    have hx := (memP_boxMinus b c px py).mp ⟨d, hdb, hm⟩
    exact ⟨⟨b, hb, hx.1⟩, hx.2⟩
  · rintro ⟨⟨b, hb, hm⟩, hc⟩
    rcases (memP_boxMinus b c px py).mpr ⟨hm, hc⟩ with ⟨d, hdb, hd⟩
    exact ⟨d, (mem_listConcatMap r _ d).mpr ⟨b, hb, hdb⟩, hd⟩

theorem Region.memP_subtract (a b : Region) (px py : Int) :
    (a.subtract b).MemP px py ↔ a.MemP px py ∧ ¬ b.MemP px py := by
  induction b generalizing a with
  | nil =>
    unfold Region.subtract
    simp [Region.MemP]
  | cons c t ih =>
    unfold Region.subtract at ih ⊢
    rw [List.foldl_cons, ih, Region.memP_subtractBox, Region.memP_cons]
    tauto

theorem Region.memP_intersect (a b : Region) (px py : Int) :
    (a.intersect b).MemP px py ↔ a.MemP px py ∧ b.MemP px py := by
  unfold Region.intersect Region.MemP
  constructor
  · rintro ⟨d, hd, hm⟩
    rcases (mem_listConcatMap a _ d).mp hd with ⟨u, hu, hdu⟩
    rcases List.mem_map.mp hdu with ⟨v, hv, rfl⟩
    have hx := (memP_interBox u v px py).mp hm
    exact ⟨⟨u, hu, hx.1⟩, ⟨v, hv, hx.2⟩⟩
  · rintro ⟨⟨u, hu, hmu⟩, ⟨v, hv, hmv⟩⟩
    exact ⟨interBox u v,
      (mem_listConcatMap a _ _).mpr ⟨u, hu, List.mem_map.mpr ⟨v, hv, rfl⟩⟩,
      (memP_interBox u v px py).mpr ⟨hmu, hmv⟩⟩

theorem Region.memP_intersect_rect (a : Region) (c : Box) (px py : Int) :
    (a.intersect_rect c).MemP px py ↔ a.MemP px py ∧ c.MemP px py := by
  unfold Region.intersect_rect Region.MemP
  constructor
  · rintro ⟨d, hd, hm⟩
    rcases List.mem_map.mp hd with ⟨b, hb, rfl⟩
    have hx := (memP_interBox b c px py).mp hm
    exact ⟨⟨b, hb, hx.1⟩, hx.2⟩
  · rintro ⟨⟨b, hb, hm⟩, hc⟩
    exact ⟨interBox b c, List.mem_map.mpr ⟨b, hb, rfl⟩,
      (memP_interBox b c px py).mpr ⟨hm, hc⟩⟩

theorem Region.memP_translate (a : Region) (dx dy px py : Int) :
    (a.translate dx dy).MemP px py ↔ a.MemP (px - dx) (py - dy) := by
  unfold Region.translate Region.MemP
  constructor
  · rintro ⟨d, hd, hm⟩
    rcases List.mem_map.mp hd with ⟨b, hb, rfl⟩
    refine ⟨b, hb, ?_⟩
    unfold Box.MemP at hm ⊢
    dsimp at hm
    omega
  · rintro ⟨b, hb, hm⟩
    refine ⟨⟨b.x + dx, b.y + dy, b.w, b.h⟩, List.mem_map.mpr ⟨b, hb, rfl⟩, ?_⟩
    unfold Box.MemP at hm ⊢
    dsimp
    omega

theorem Region.not_empty_iff (r : Region) :
    r.not_empty = true ↔ ∃ px py, r.MemP px py := by
  unfold Region.not_empty Region.MemP
  rw [List.any_eq_true]
  constructor
  · rintro ⟨b, hb, hwh⟩
    simp only [Bool.and_eq_true, decide_eq_true_eq] at hwh
    refine ⟨b.x, b.y, b, hb, ?_⟩
    unfold Box.MemP
    omega
  · rintro ⟨px, py, b, hb, hm⟩
    refine ⟨b, hb, ?_⟩
    simp only [Bool.and_eq_true, decide_eq_true_eq]
    unfold Box.MemP at hm
    omega

/-! ## Frame scheduler: helper lemmas -/

theorem auto_redraw_fst_clamp (c : Int) (r : Bool) :
    (render_manager.auto_redraw c r).1 = max 0 (c + (if r then 1 else -1)) := by
  unfold render_manager.auto_redraw
  dsimp only
  split_ifs <;> omega

theorem sched_cr_nonneg (ops : List SchedOp) (st : SchedState)
    (h : 0 ≤ st.constant_redraw) :
    0 ≤ (ops.foldl schedStep st).constant_redraw := by
  induction ops generalizing st with
  | nil => simpa using h
  | cons o t ih =>
    rw [List.foldl_cons]
    apply ih
    cases o with
    | auto b =>
      show 0 ≤ (render_manager.auto_redraw st.constant_redraw b).1
      rw [auto_redraw_fst_clamp]
      omega
    | inhibit b => simpa [schedStep] using h

theorem sched_oi_eq (ops : List SchedOp) (st : SchedState) :
    (ops.foldl schedStep st).output_inhibit =
      st.output_inhibit + (countInhibitTrue ops : Int) - (countInhibitFalse ops : Int) := by
  induction ops generalizing st with
  | nil => simp [countInhibitTrue, countInhibitFalse]
  | cons o t ih =>
    rw [List.foldl_cons, ih]
    cases o with
    | auto b =>
      simp [schedStep, countInhibitTrue, countInhibitFalse]
    | inhibit b =>
      cases b
      · simp [schedStep, render_manager.add_inhibit, countInhibitTrue, countInhibitFalse]
        ring
      · simp [schedStep, render_manager.add_inhibit, countInhibitTrue, countInhibitFalse]
        ring

/-- C5, counterexample: at constant_redraw = 1, auto_redraw(false) drops the
counter from 1 to 0 — not a 0→1 crossing — yet the source falls through and
invokes schedule_redraw(), so schedule_redraw is not invoked exactly on the
0→1 crossings. -/
theorem auto_redraw_schedule_claim_false : ¬ autoRedrawScheduleClaim := by
  intro h
  have h2 := (h 1 (by norm_num) false).mp (by decide)
  exact absurd h2.2 (by decide)

/-- C5, amended: each auto_redraw(b) call sets constant_redraw to
max 0 (old ± 1), and schedule_redraw() is invoked exactly on the calls where
the adjusted (pre-clamp) counter lands in the band [0, 1]: this includes the
0→1 crossing, but also the drops 1→0 and 2→1. -/
theorem auto_redraw_clamp_schedule (c : Int) (r : Bool) :
    (render_manager.auto_redraw c r).1 = max 0 (c + (if r then 1 else -1)) ∧
    ((render_manager.auto_redraw c r).2 = true ↔
      (0 ≤ c + (if r then 1 else -1) ∧ c + (if r then 1 else -1) ≤ 1)) := by
  unfold render_manager.auto_redraw
  dsimp only
  split_ifs <;> refine ⟨by omega, ?_⟩ <;> simp <;> omega

/-- C6, counterexample: the single-call sequence add_inhibit(false) starting
from the initial state drives output_inhibit to -1 (the source does not
clamp it), so the non-negativity claim fails for arbitrary sequences. -/
theorem counter_nonneg_claim_false : ¬ counterNonNegClaim := by
  intro h
  have h2 := (h [SchedOp.inhibit false] 1).2
  have he : (schedRun ([SchedOp.inhibit false].take 1)).output_inhibit = -1 := by decide
  rw [he] at h2
  exact absurd h2 (by norm_num)

/-- C6, amended: constant_redraw is clamped and stays non-negative after
every call of every sequence, unconditionally; output_inhibit stays
non-negative provided the sequence is balanced — every prefix contains at
least as many add_inhibit(true) calls as add_inhibit(false) calls. -/
theorem counters_nonneg_balanced (ops : List SchedOp) :
    (∀ n : Nat, 0 ≤ (schedRun (ops.take n)).constant_redraw) ∧
    ((∀ m, m ≤ ops.length →
        countInhibitFalse (ops.take m) ≤ countInhibitTrue (ops.take m)) →
      ∀ n : Nat, 0 ≤ (schedRun (ops.take n)).output_inhibit) := by
  constructor
  · intro n
    exact sched_cr_nonneg _ _ (by norm_num)
  · intro hbal n
    have hb : countInhibitFalse (ops.take n) ≤ countInhibitTrue (ops.take n) := by
      rcases le_or_lt n ops.length with hle | hlt
      · exact hbal n hle
      · rw [List.take_of_length_le (le_of_lt hlt)]
        have hx := hbal ops.length (le_refl _)
        rwa [List.take_length] at hx
    show 0 ≤ ((ops.take n).foldl schedStep ⟨0, 0⟩).output_inhibit
    rw [sched_oi_eq]
    simp only
    omega

/-- C6, witness: a concrete balanced sequence, observed after its third
call. -/
theorem counters_nonneg_balanced_witness :
    0 ≤ (schedRun (([SchedOp.inhibit true, SchedOp.auto true,
          SchedOp.inhibit false]).take 3)).constant_redraw ∧
      0 ≤ (schedRun (([SchedOp.inhibit true, SchedOp.auto true,
            SchedOp.inhibit false]).take 3)).output_inhibit :=
  ⟨(counters_nonneg_balanced [SchedOp.inhibit true, SchedOp.auto true,
      SchedOp.inhibit false]).1 3,
   (counters_nonneg_balanced [SchedOp.inhibit true, SchedOp.auto true,
      SchedOp.inhibit false]).2 (by decide) 3⟩

/-! ## Effect hook registry: snapshot property -/

theorem foldl_append_singleton (l acc : List Nat) :
    l.foldl (fun a e => a ++ [e]) acc = acc ++ l := by
  induction l generalizing acc with
  | nil => simp
  | cons a t ih => simp [List.foldl_cons, ih]

theorem run_effects_fst_aux (beh : Nat → List RegOp) (l inv reg : List Nat) :
    (l.foldl (fun acc e => (acc.1 ++ [e], invokeHook beh acc.2 e)) (inv, reg)).1 =
      inv ++ l := by
  induction l generalizing inv reg with
  | nil => simp
  | cons a t ih => simp [List.foldl_cons, ih]

/-- C9: run_effects invokes exactly the hooks registered in the phase's
container at the moment the call begins, in insertion order; whatever
add_effect / rem_effect mutations the invoked hooks perform on the live
container, the invocation list of the current phase is unchanged. -/
theorem run_effects_snapshot (beh : Nat → List RegOp) (container : List Nat) :
    (render_manager.run_effects beh container).1 = container := by
  show ((container.foldl (fun acc e => acc ++ [e]) ([] : List Nat)).foldl
      (fun acc e => (acc.1 ++ [e], invokeHook beh acc.2 e)) ([], container)).1 = container
  rw [foldl_append_singleton, List.nil_append, run_effects_fst_aux, List.nil_append]

/-! ## Reverse draw order -/

theorem emit_render_calls_eq (l : List damaged_surface_t) :
    emit_render_calls l = (l.map (fun ds => (ds.surface, ds.damage))).reverse := by
  induction l with
  | nil => rfl
  | cons ds t ih => simp [emit_render_calls, ih]

/-- C4: the drawing loop walks the collected damaged-surface records with a
reverse iterator, so the render_fb call sequence is the collected
front-to-back list reversed, each call carrying that record's own damage; in
particular a collected list [A, B, C] is drawn as C, B, A. -/
theorem render_calls_reverse_order (l : List damaged_surface_t)
    (A B C : damaged_surface_t) :
    emit_render_calls l = (l.map (fun ds => (ds.surface, ds.damage))).reverse ∧
    emit_render_calls [A, B, C] =
      [(C.surface, C.damage), (B.surface, B.damage), (A.surface, A.damage)] := by
  refine ⟨emit_render_calls_eq l, ?_⟩
  simp [emit_render_calls]

/-! ## Workspace damage query -/

/-- C7: get_ws_damage((vx,vy)) is the frame damage intersected with the
rectangle ((vx−cx)·sw, (vy−cy)·sh, sw, sh) and translated by
((cx−vx)·sw, (cy−vy)·sh): pointwise, a workspace-local pixel (px, py) is in
the result exactly when it lies in the output-sized workspace rectangle and
the corresponding frame-damage pixel (px + (vx−cx)·sw, py + (vy−cy)·sh) is
damaged. -/
theorem get_ws_damage_char (frame : Region) (vx vy cx cy sw sh px py : Int) :
    (render_manager.get_ws_damage frame vx vy cx cy sw sh).MemP px py ↔
      (frame.MemP (px + (vx - cx) * sw) (py + (vy - cy) * sh) ∧
       0 ≤ px ∧ px < sw ∧ 0 ≤ py ∧ py < sh) := by
  unfold render_manager.get_ws_damage
  rw [Region.memP_translate, Region.memP_intersect_rect]
  have h1 : px - (cx - vx) * sw = px + (vx - cx) * sw := by ring
  have h2 : py - (cy - vy) * sh = py + (vy - cy) * sh := by ring
  rw [h1, h2]
  unfold Box.MemP
  dsimp only
  constructor
  · rintro ⟨hf, hb⟩
    refine ⟨hf, ?_⟩
    generalize hA : (vx - cx) * sw = A at hb
    generalize hB : (vy - cy) * sh = B at hb
    omega
  · rintro ⟨hf, hb⟩
    refine ⟨hf, ?_⟩
    generalize hA : (vx - cx) * sw = A
    generalize hB : (vy - cy) * sh = B
    omega

/-- C10: get_ws_damage is a pure query with respect to manager state: the
state-passing embedding returns the manager state unchanged, and the out
parameter it writes is a function of the frame damage and the current
workspace only. -/
theorem get_ws_damage_pure (st : render_manager_state) (vx vy sw sh : Int) :
    (render_manager.get_ws_damage_st st vx vy sw sh).2 = st ∧
    (render_manager.get_ws_damage_st st vx vy sw sh).1 =
      render_manager.get_ws_damage st.frame_damage vx vy
        st.current_ws.1 st.current_ws.2 sw sh :=
  ⟨rfl, rfl⟩

/-! ## paint() aborting on make_current failure -/

/-- C8: when make_current fails, paint() returns right after the failed
call: the trace is exactly cleanup, the pre phase and the failed
make_current — no GPU binding or allocation, no custom or stream render, no
overlay phase, no post-effect hooks, no software cursors, no buffer swap,
and no post_paint (no post phase, no frame-done notifications).  paint()
returns void in the source, so no error is surfaced to the caller. -/
theorem paint_abort_on_failure (e : PaintEnv) (h : e.mc_ok = false) :
    render_manager.paint_trace e =
      [PaintAction.cleanup_hooks, PaintAction.effects_phase 0,
       PaintAction.mk_current false] ∧
    PaintAction.bind_gpu ∉ render_manager.paint_trace e ∧
    PaintAction.alloc_default ∉ render_manager.paint_trace e ∧
    PaintAction.custom_render ∉ render_manager.paint_trace e ∧
    PaintAction.stream_render ∉ render_manager.paint_trace e ∧
    PaintAction.effects_phase 1 ∉ render_manager.paint_trace e ∧
    PaintAction.effects_phase 2 ∉ render_manager.paint_trace e ∧
    (∀ i, PaintAction.run_post_hook i ∉ render_manager.paint_trace e) ∧
    PaintAction.soft_cursors ∉ render_manager.paint_trace e ∧
    PaintAction.swap ∉ render_manager.paint_trace e ∧
    PaintAction.frame_done ∉ render_manager.paint_trace e := by
  have he : render_manager.paint_trace e =
      [PaintAction.cleanup_hooks, PaintAction.effects_phase 0,
       PaintAction.mk_current false] := by
    unfold render_manager.paint_trace
    simp [h]
  rw [he]
  refine ⟨rfl, ?_, ?_, ?_, ?_, ?_, ?_, ?_, ?_, ?_, ?_⟩ <;> simp

/-- C8, witness: a concrete environment whose make_current fails. -/
theorem paint_abort_on_failure_witness :
    render_manager.paint_trace ⟨false, false, 0, false, false, false, 0, 0⟩ =
      [PaintAction.cleanup_hooks, PaintAction.effects_phase 0,
       PaintAction.mk_current false] :=
  (paint_abort_on_failure ⟨false, false, 0, false, false, false, 0, 0⟩ rfl).1

/-! ## make_current: out_damage contents and frame-damage subtraction -/

theorem Region.memP_union (a b : Region) (px py : Int) :
    (a.union b).MemP px py ↔ a.MemP px py ∨ b.MemP px py :=
  Region.memP_append a b px py

/-- C2: when make_current succeeds, out_damage is exactly the union of the
display's tracked damage, the frame damage this manager accumulated outside
the output rectangle, and — when no_damage_track is set — the full output
rectangle; afterwards the internal frame damage has no pixel inside the
output rectangle (0, 0, w, h), hence contains no non-empty rectangle fully
contained in it. -/
theorem make_current_success_damage (frame tracked out0 : Region)
    (success ndt : Bool) (w h : Int) (hs : success = true) :
    (∀ px py,
      (wf_output_damage.make_current frame tracked out0 success ndt w h).out_damage.MemP px py ↔
        (tracked.MemP px py ∨
         (frame.MemP px py ∧ ¬ Box.MemP ⟨0, 0, w, h⟩ px py) ∨
         (ndt = true ∧ Box.MemP ⟨0, 0, w, h⟩ px py))) ∧
    (∀ px py, Box.MemP ⟨0, 0, w, h⟩ px py →
      ¬ (wf_output_damage.make_current frame tracked out0 success ndt w h).frame_damage.MemP px py) ∧
    (∀ b : Box, 0 < b.w → 0 < b.h →
      (∀ px py, b.MemP px py → Box.MemP ⟨0, 0, w, h⟩ px py) →
      ¬ (∀ px py, b.MemP px py →
          (wf_output_damage.make_current frame tracked out0 success ndt w h).frame_damage.MemP px py)) := by
  subst hs
  have hkey : ∀ px py, Box.MemP ⟨0, 0, w, h⟩ px py →
      ¬ (frame.subtract (Region.ofBox ⟨0, 0, w, h⟩)).MemP px py := by
    intro px py hin hmem
    rw [Region.memP_subtract, Region.memP_ofBox] at hmem
    exact hmem.2 hin
  cases ndt
  · have hfd : (wf_output_damage.make_current frame tracked out0 true false w h).frame_damage =
        frame.subtract (Region.ofBox ⟨0, 0, w, h⟩) := rfl
    have hout : (wf_output_damage.make_current frame tracked out0 true false w h).out_damage =
        tracked.union (frame.subtract (Region.ofBox ⟨0, 0, w, h⟩)) := rfl
    refine ⟨?_, ?_, ?_⟩
    · intro px py
      rw [hout, Region.memP_union, Region.memP_subtract, Region.memP_ofBox]
      have hne : ¬ ((false : Bool) = true) := by decide
      tauto
    · intro px py hin
      rw [hfd]
      exact hkey px py hin
    · intro b hw hh hcov hall
      have hc : b.MemP b.x b.y := by
        unfold Box.MemP
        omega
      have h2 := hall b.x b.y hc
      rw [hfd] at h2
      exact hkey b.x b.y (hcov b.x b.y hc) h2
  · have hfd : (wf_output_damage.make_current frame tracked out0 true true w h).frame_damage =
        frame.subtract (Region.ofBox ⟨0, 0, w, h⟩) := rfl
    have hout : (wf_output_damage.make_current frame tracked out0 true true w h).out_damage =
        (tracked.union (frame.subtract (Region.ofBox ⟨0, 0, w, h⟩))).union
          (Region.ofBox ⟨0, 0, w, h⟩) := rfl
    refine ⟨?_, ?_, ?_⟩
    · intro px py
      rw [hout, Region.memP_union, Region.memP_union, Region.memP_subtract,
        Region.memP_ofBox]
      have ht : (true : Bool) = true := rfl
      tauto
    · intro px py hin
      rw [hfd]
      exact hkey px py hin
    · intro b hw hh hcov hall
      have hc : b.MemP b.x b.y := by
        unfold Box.MemP
        omega
      have h2 := hall b.x b.y hc
      rw [hfd] at h2
      exact hkey b.x b.y (hcov b.x b.y hc) h2

/-- C2, witness: a concrete successful make_current on a frame-damage region
sticking out of a 3×3 output; the out-of-bounds pixel (-1, 1) ends up in
out_damage. -/
theorem make_current_success_damage_witness :
    (wf_output_damage.make_current [⟨-2, 0, 5, 2⟩] [] [] true false 3 3).out_damage.MemP
      (-1) 1 :=
  ((make_current_success_damage [⟨-2, 0, 5, 2⟩] [] [] true false 3 3 rfl).1 (-1) 1).mpr
    (Or.inr (Or.inl ⟨by decide, by decide⟩))

/-! ## Occlusion culling in workspace_stream_update -/

theorem Region.not_empty_eq_false_iff (r : Region) :
    r.not_empty = false ↔ ∀ px py, ¬ r.MemP px py := by
  constructor
  · intro hr px py hm
    have hx := (Region.not_empty_iff r).mpr ⟨px, py, hm⟩
    rw [hr] at hx
    exact Bool.noConfusion hx
  · intro hall
    cases he : r.not_empty
    · rfl
    · rcases (Region.not_empty_iff r).mp he with ⟨px, py, hm⟩
      exact absurd hm (hall px py)

theorem stream_collect_views_cons_pos (scale dx dy : Int) (v : wayfire_view_t)
    (rest : List wayfire_view_t) (acc : List damaged_surface_t × Region)
    (h : acc.2.not_empty = true) :
    stream_collect_views scale dx dy (v :: rest) acc =
      stream_collect_views scale dx dy rest (stream_process_view scale dx dy acc v) := by
  conv_lhs => unfold stream_collect_views
  rw [if_pos h]

theorem stream_collect_views_cons_neg (scale dx dy : Int) (v : wayfire_view_t)
    (rest : List wayfire_view_t) (acc : List damaged_surface_t × Region)
    (h : acc.2.not_empty = false) :
    stream_collect_views scale dx dy (v :: rest) acc = acc := by
  conv_lhs => unfold stream_collect_views
  rw [if_neg (by simp [h])]

/-- C3: in the stream-update record collection, when the frontmost view
carries a single mapped surface A that is opaque (alpha at least 0.999),
whose scaled output-geometry box covers all of the workspace damage, and
whose opaque region (placed at its workspace-local position) also covers it,
then only A produces a record: the opaque subtraction empties ws_damage, so
the views behind it — here vB and vC — are never scheduled, and the draw
sequence consists of A alone. -/
theorem occlusion_culls_occluded_surfaces
    (scale dx dy : Int) (vA vB vC : wayfire_view_t) (A : wayfire_surface_t)
    (xA yA : Int) (ws : Region)
    (hvis : vA.is_visible = true)
    (htr : vA.has_transformer = false)
    (hvm : vA.is_mapped = true)
    (hsurf : vA.surfaces = [(A, xA, yA)])
    (hm : A.is_mapped = true)
    (halpha : (999 : ℚ) / 1000 ≤ A.alpha)
    (hne : ws.not_empty = true)
    (hcover : (ws.subtract (Region.ofBox (get_output_box_from_box
        ⟨xA - (if vA.is_shell then 0 else dx), yA - (if vA.is_shell then 0 else dy),
         A.geo_w, A.geo_h⟩ scale))).not_empty = false)
    (hopq : (ws.subtract (A.occl_region.translate
        (xA - (if vA.is_shell then 0 else dx))
        (yA - (if vA.is_shell then 0 else dy)))).not_empty = false) :
    (build_to_render scale dx dy [] [vA, vB, vC] ws).1.map
        (fun ds => ds.surface) = [A.sid] ∧
    (emit_render_calls (build_to_render scale dx dy [] [vA, vB, vC] ws).1).map
        Prod.fst = [A.sid] := by
  have hdsne : ((Region.ofBox (get_output_box_from_box
      ⟨xA - (if vA.is_shell then 0 else dx), yA - (if vA.is_shell then 0 else dy),
       A.geo_w, A.geo_h⟩ scale)).intersect ws).not_empty = true := by
    rcases (Region.not_empty_iff ws).mp hne with ⟨px, py, hpm⟩
    refine (Region.not_empty_iff _).mpr ⟨px, py, ?_⟩
    rw [Region.memP_intersect, Region.memP_ofBox]
    refine ⟨?_, hpm⟩
    have hc := (Region.not_empty_eq_false_iff _).mp hcover px py
    rw [Region.memP_subtract, Region.memP_ofBox] at hc
    by_contra hnb
    exact hc ⟨hpm, hnb⟩
  have hproc : stream_process_view scale dx dy ([], ws) vA =
      ([⟨A.sid, (if vA.is_shell then 0 else dx), (if vA.is_shell then 0 else dy),
         (Region.ofBox (get_output_box_from_box
            ⟨xA - (if vA.is_shell then 0 else dx), yA - (if vA.is_shell then 0 else dy),
             A.geo_w, A.geo_h⟩ scale)).intersect ws⟩],
       ws.subtract (A.occl_region.translate
         (xA - (if vA.is_shell then 0 else dx))
         (yA - (if vA.is_shell then 0 else dy)))) := by
    unfold stream_process_view schedule_render_surface wayfire_surface_t.subtract_occl
    simp [hvis, htr, hvm, hsurf, hm, hne, hdsne, halpha]
  have hstep1 : build_to_render scale dx dy [] [vA, vB, vC] ws =
      stream_collect_views scale dx dy [vB, vC]
        (stream_process_view scale dx dy ([], ws) vA) := by
    show stream_collect_views scale dx dy [vA, vB, vC] ([], ws) = _
    exact stream_collect_views_cons_pos scale dx dy vA [vB, vC] ([], ws) hne
  rw [hstep1, hproc, stream_collect_views_cons_neg scale dx dy vB [vC] _ hopq]
  constructor
  · simp
  · simp [emit_render_calls]

/-- C3, witness: a fully opaque 4×4 surface in front of two other views over
a 4×4 workspace damage region. -/
theorem occlusion_culls_occluded_surfaces_witness :
    (build_to_render 1 0 0 []
      [⟨10, true, true, false, false, ⟨0, 0, 4, 4⟩,
         [(⟨1, true, 4, 4, 1, [⟨0, 0, 4, 4⟩]⟩, 0, 0)]⟩,
       ⟨11, true, true, false, false, ⟨0, 0, 4, 4⟩,
         [(⟨2, true, 4, 4, 1, [⟨0, 0, 4, 4⟩]⟩, 0, 0)]⟩,
       ⟨12, true, true, false, false, ⟨0, 0, 4, 4⟩,
         [(⟨3, true, 4, 4, 1, [⟨0, 0, 4, 4⟩]⟩, 0, 0)]⟩]
      [⟨0, 0, 4, 4⟩]).1.map (fun ds => ds.surface) = [1] :=
  (occlusion_culls_occluded_surfaces 1 0 0
    ⟨10, true, true, false, false, ⟨0, 0, 4, 4⟩,
      [(⟨1, true, 4, 4, 1, [⟨0, 0, 4, 4⟩]⟩, 0, 0)]⟩
    ⟨11, true, true, false, false, ⟨0, 0, 4, 4⟩,
      [(⟨2, true, 4, 4, 1, [⟨0, 0, 4, 4⟩]⟩, 0, 0)]⟩
    ⟨12, true, true, false, false, ⟨0, 0, 4, 4⟩,
      [(⟨3, true, 4, 4, 1, [⟨0, 0, 4, 4⟩]⟩, 0, 0)]⟩
    ⟨1, true, 4, 4, 1, [⟨0, 0, 4, 4⟩]⟩ 0 0 [⟨0, 0, 4, 4⟩]
    rfl rfl rfl rfl rfl (by norm_num) (by decide) (by decide) (by decide)).1

/-! ## Post-effect chain: terminal zero-id invariant -/

theorem add_post_eq_none (st : PostChain) (hook : Nat) (w h : Int)
    (hl : st.post_effects.getLast? = none) :
    render_manager.add_post st hook w h =
      ⟨⟨some st.next_id, some (st.next_id + 1), w, h⟩,
       st.post_effects ++ [⟨st.next_eid, hook, false, ⟨some 0, some 0, w, h⟩⟩],
       st.next_id + 2, st.next_eid + 1⟩ := by
  unfold render_manager.add_post
  rw [hl]
  rfl

theorem add_post_eq_some (st : PostChain) (hook : Nat) (w h : Int) (e : wf_post_effect)
    (hl : st.post_effects.getLast? = some e) :
    render_manager.add_post st hook w h =
      ⟨st.default_buffer,
       (st.post_effects.dropLast ++
         [{ e with buffer := ⟨some st.next_id, some (st.next_id + 1), w, h⟩ }]) ++
         [⟨st.next_eid, hook, false, ⟨some 0, some 0, w, h⟩⟩],
       st.next_id + 2, st.next_eid + 1⟩ := by
  unfold render_manager.add_post
  rw [hl]
  rfl

theorem add_post_terminal (st : PostChain) (hook : Nat) (w h : Int) :
    chainTerminalZero (render_manager.add_post st hook w h) := by
  intro e he
  cases hl : st.post_effects.getLast? with
  | none =>
    rw [add_post_eq_none st hook w h hl] at he
    dsimp only at he
    rw [List.getLast?_concat] at he
    cases he
    exact ⟨rfl, rfl⟩
  | some e0 =>
    rw [add_post_eq_some st hook w h e0 hl] at he
    dsimp only at he
    rw [List.getLast?_concat] at he
    cases he
    exact ⟨rfl, rfl⟩

theorem add_post_prev_real (st : PostChain) (hook : Nat) (w h : Int)
    (hid : 1 ≤ st.next_id) :
    prevSlotReal st (render_manager.add_post st hook w h) := by
  constructor
  · intro hl
    rw [add_post_eq_none st hook w h hl]
    exact ⟨⟨st.next_id, rfl, by omega⟩, ⟨st.next_id + 1, rfl, by omega⟩⟩
  · intro e hl
    rw [add_post_eq_some st hook w h e hl]
    refine ⟨{ e with buffer := ⟨some st.next_id, some (st.next_id + 1), w, h⟩ }, ?_, rfl, ?_⟩
    · dsimp only
      rw [List.dropLast_concat, List.getLast?_concat]
    · exact ⟨⟨st.next_id, rfl, by omega⟩, ⟨st.next_id + 1, rfl, by omega⟩⟩

theorem add_post_inv (st : PostChain) (hook : Nat) (w h : Int) (hinv : chainInv st) :
    chainInv (render_manager.add_post st hook w h) := by
  obtain ⟨hsync, hdsync, hterm, hid⟩ := hinv
  refine ⟨?_, ?_, add_post_terminal st hook w h, ?_⟩
  · cases hl : st.post_effects.getLast? with
    | none =>
      rw [add_post_eq_none st hook w h hl]
      intro e he
      dsimp only at he
      rcases List.mem_append.mp he with h1 | h1
      · exact hsync e h1
      · rcases List.mem_singleton.mp h1 with rfl
        exact Iff.rfl
    | some e0 =>
      rw [add_post_eq_some st hook w h e0 hl]
      intro e he
      dsimp only at he
      rcases List.mem_append.mp he with h1 | h1
      · rcases List.mem_append.mp h1 with h2 | h2
        · exact hsync e (List.dropLast_subset _ h2)
        · rcases List.mem_singleton.mp h2 with rfl
          unfold bufZeroSync
          dsimp only
          constructor
          · intro hfb
            exact absurd hfb (by simp; omega)
          · intro htex
            exact absurd htex (by simp)
      · rcases List.mem_singleton.mp h1 with rfl
        exact Iff.rfl
  · cases hl : st.post_effects.getLast? with
    | none =>
      rw [add_post_eq_none st hook w h hl]
      unfold bufZeroSync
      dsimp only
      constructor
      · intro hfb
        exact absurd hfb (by simp; omega)
      · intro htex
        exact absurd htex (by simp)
    | some e0 =>
      rw [add_post_eq_some st hook w h e0 hl]
      exact hdsync
  · cases hl : st.post_effects.getLast? with
    | none =>
      rw [add_post_eq_none st hook w h hl]
      dsimp only
      omega
    | some e0 =>
      rw [add_post_eq_some st hook w h e0 hl]
      dsimp only
      omega

theorem rem_post_mark_inv (st : PostChain) (hook : Nat) (hinv : chainInv st) :
    chainInv (render_manager.rem_post st hook) := by
  obtain ⟨hsync, hdsync, hterm, hid⟩ := hinv
  have hbuf : ∀ e : wf_post_effect,
      ((if e.hook = hook then { e with to_remove := true } else e) : wf_post_effect).buffer =
        e.buffer := by
    intro e
    split <;> rfl
  refine ⟨?_, hdsync, ?_, hid⟩
  · intro e he
    unfold render_manager.rem_post at he
    dsimp only at he
    rcases List.mem_map.mp he with ⟨e0, he0, rfl⟩
    rw [hbuf e0]
    exact hsync e0 he0
  · intro e he
    unfold render_manager.rem_post at he
    dsimp only at he
    rw [List.getLast?_map] at he
    cases hl : st.post_effects.getLast? with
    | none =>
      rw [hl] at he
      exact Option.noConfusion he
    | some e0 =>
      rw [hl] at he
      have he' : ((if e0.hook = hook then { e0 with to_remove := true } else e0) :
          wf_post_effect) = e := Option.some.inj he
      subst he'
      rw [hbuf e0]
      exact hterm e0 hl

theorem rem_post_erase_inv (st : PostChain) (eid : Nat) (hinv : chainInv st) :
    chainInv (render_manager._rem_post st eid) := by
  obtain ⟨hsync, hdsync, hterm, hid⟩ := hinv
  have hfix : ∀ b : wf_framebuffer_base, bufZeroSync b →
      (fixTerminalBuffer b).fb = some 0 ∧ (fixTerminalBuffer b).tex = some 0 := by
    intro b hb
    unfold fixTerminalBuffer
    split
    · exact ⟨rfl, rfl⟩
    · rename_i hnot
      rw [not_not] at hnot
      exact ⟨hnot, hb.mp hnot⟩
  have hfixsync : ∀ b : wf_framebuffer_base, bufZeroSync b →
      bufZeroSync (fixTerminalBuffer b) := by
    intro b hb
    unfold fixTerminalBuffer
    split
    · exact Iff.rfl
    · exact hb
  unfold render_manager._rem_post
  cases hl : (st.post_effects.filter (fun e => e.eid ≠ eid)).getLast? with
  | none =>
    have hk : st.post_effects.filter (fun e => e.eid ≠ eid) = [] :=
      List.getLast?_eq_none_iff.mp hl
    refine ⟨?_, hfixsync _ hdsync, ?_, hid⟩
    · intro e he
      dsimp only at he
      rw [hk] at he
      exact absurd he (List.not_mem_nil e)
    · intro e he
      dsimp only at he
      rw [hk] at he
      exact Option.noConfusion he
  | some e0 =>
    have he0mem : e0 ∈ st.post_effects :=
      (List.mem_filter.mp (List.mem_of_getLast?_eq_some hl)).1
    refine ⟨?_, hdsync, ?_, hid⟩
    · intro e he
      dsimp only at he
      rcases List.mem_append.mp he with h1 | h1
      · exact hsync e (List.mem_filter.mp (List.dropLast_subset _ h1)).1
      · rcases List.mem_singleton.mp h1 with rfl
        exact hfixsync _ (hsync e0 he0mem)
    · intro e he
      dsimp only at he
      rw [List.getLast?_concat] at he
      cases he
      exact hfix _ (hsync e0 he0mem)

theorem foldl_rem_post_inv (l : List Nat) (st : PostChain) (hinv : chainInv st) :
    chainInv (l.foldl render_manager._rem_post st) := by
  induction l generalizing st with
  | nil => exact hinv
  | cons a t ih => exact ih _ (rem_post_erase_inv st a hinv)

theorem cleanup_post_hooks_inv (st : PostChain) (hinv : chainInv st) :
    chainInv (render_manager.cleanup_post_hooks st) :=
  foldl_rem_post_inv _ st hinv

theorem chainReach_inv (st : PostChain) (hr : ChainReach st) : chainInv st := by
  induction hr with
  | init =>
    refine ⟨?_, Iff.rfl, ?_, le_refl 1⟩
    · intro e he
      exact absurd he (List.not_mem_nil e)
    · intro e he
      exact Option.noConfusion he
  | add st hook w h hr ih => exact add_post_inv st hook w h ih
  | rem st hook hr ih => exact rem_post_mark_inv st hook ih
  | cleanup st hr ih => exact cleanup_post_hooks_inv st ih

/-- C1: for every reachable chain state, immediately after add_post(hook)
the last entry of post_effects has buffer ids fb = 0 and tex = 0 while the
previously-last slot (the default buffer when the chain was empty, otherwise
the now second-to-last entry) owns a real allocated buffer; and after the
deferred removal triggered by rem_post(hook2) and performed by
cleanup_post_hooks, the last remaining entry — when one exists — again has
buffer ids fb = 0 and tex = 0. -/
theorem post_chain_terminal_invariant (st : PostChain) (hr : ChainReach st)
    (hook hook2 : Nat) (w h : Int) :
    chainTerminalZero (render_manager.add_post st hook w h) ∧
    prevSlotReal st (render_manager.add_post st hook w h) ∧
    chainTerminalZero
      (render_manager.cleanup_post_hooks (render_manager.rem_post st hook2)) := by
  have hinv := chainReach_inv st hr
  refine ⟨add_post_terminal st hook w h,
    add_post_prev_real st hook w h hinv.2.2.2, ?_⟩
  exact (cleanup_post_hooks_inv _ (rem_post_mark_inv st hook2 hinv)).2.2.1

/-- C1, witness: the constructor state, one add_post, and one rem_post plus
cleanup round. -/
theorem post_chain_terminal_invariant_witness :
    chainTerminalZero (render_manager.add_post initChain 7 4 4) ∧
    prevSlotReal initChain (render_manager.add_post initChain 7 4 4) ∧
    chainTerminalZero
      (render_manager.cleanup_post_hooks (render_manager.rem_post initChain 9)) :=
  post_chain_terminal_invariant initChain ChainReach.init 7 9 4 4
